import Mathlib

/-!
Shallow embedding of the Dzongkha (U-chen script) to Roman Dzongkha converter
of `src/unnamed/part_000` (`dzongkha_roman_converter_checked.js`).

JavaScript strings are modelled as lists of Unicode scalar values
(`List Char`); every table and function below is translated from that source
file.  Tibetan codepoints are written with `Char.ofNat` and named after the
letter they denote; the glyph and the source snippet appear in each comment.
-/

/-- A JavaScript string, as its list of Unicode codepoints. -/
abbrev Str := List Char

/-! ### Codepoints used by the source tables -/

/-- ASCII apostrophe U+0027, the devoicing marker the source appends. -/
def apos : Char := Char.ofNat 39

/-- Right single quotation mark U+2019 (used in the roman value of one
exception entry). -/
def rsq : Char := Char.ofNat 0x2019

/-- Tibetan tsheg U+0F0B — source constant `TSHEG`. -/
def TSHEG : Char := Char.ofNat 0x0F0B

/-- Tibetan shad U+0F0D (`།`). -/
def SHAD : Char := Char.ofNat 0x0F0D

/-- Tibetan nyis shad U+0F0E (`༎`). -/
def NYIS_SHAD : Char := Char.ofNat 0x0F0E

/-- Tibetan tsheg shad U+0F0F (`༏`). -/
def TSHEG_SHAD : Char := Char.ofNat 0x0F0F

/-- Tibetan gter tsheg U+0F14 (`༔`). -/
def GTER_TSHEG : Char := Char.ofNat 0x0F14

/-- Tibetan letter KA U+0F40 (`ཀ`). -/
def cKA : Char := Char.ofNat 0x0F40
/-- Tibetan letter KHA U+0F41 (`ཁ`). -/
def cKHA : Char := Char.ofNat 0x0F41
/-- Tibetan letter GA U+0F42 (`ག`). -/
def cGA : Char := Char.ofNat 0x0F42
/-- Tibetan letter NGA U+0F44 (`ང`). -/
def cNGA : Char := Char.ofNat 0x0F44
/-- Tibetan letter CA U+0F45 (`ཅ`). -/
def cCA : Char := Char.ofNat 0x0F45
/-- Tibetan letter CHA U+0F46 (`ཆ`). -/
def cCHA : Char := Char.ofNat 0x0F46
/-- Tibetan letter JA U+0F47 (`ཇ`). -/
def cJA : Char := Char.ofNat 0x0F47
/-- Tibetan letter NYA U+0F49 (`ཉ`). -/
def cNYA : Char := Char.ofNat 0x0F49
/-- Tibetan letter TA U+0F4F (`ཏ`). -/
def cTA : Char := Char.ofNat 0x0F4F
/-- Tibetan letter THA U+0F50 (`ཐ`). -/
def cTHA : Char := Char.ofNat 0x0F50
/-- Tibetan letter DA U+0F51 (`ད`). -/
def cDA : Char := Char.ofNat 0x0F51
/-- Tibetan letter NA U+0F53 (`ན`). -/
def cNA : Char := Char.ofNat 0x0F53
/-- Tibetan letter PA U+0F54 (`པ`). -/
def cPA : Char := Char.ofNat 0x0F54
/-- Tibetan letter PHA U+0F55 (`ཕ`). -/
def cPHA : Char := Char.ofNat 0x0F55
/-- Tibetan letter BA U+0F56 (`བ`). -/
def cBA : Char := Char.ofNat 0x0F56
/-- Tibetan letter MA U+0F58 (`མ`). -/
def cMA : Char := Char.ofNat 0x0F58
/-- Tibetan letter TSA U+0F59 (`ཙ`). -/
def cTSA : Char := Char.ofNat 0x0F59
/-- Tibetan letter TSHA U+0F5A (`ཚ`). -/
def cTSHA : Char := Char.ofNat 0x0F5A
/-- Tibetan letter DZA U+0F5B (`ཛ`). -/
def cDZA : Char := Char.ofNat 0x0F5B
/-- Tibetan letter WA U+0F5D (`ཝ`). -/
def cWA : Char := Char.ofNat 0x0F5D
/-- Tibetan letter ZHA U+0F5E (`ཞ`). -/
def cZHA : Char := Char.ofNat 0x0F5E
/-- Tibetan letter ZA U+0F5F (`ཟ`). -/
def cZA : Char := Char.ofNat 0x0F5F
/-- Tibetan letter -A U+0F60 (`འ`). -/
def cAA : Char := Char.ofNat 0x0F60
/-- Tibetan letter YA U+0F61 (`ཡ`). -/
def cYA : Char := Char.ofNat 0x0F61
/-- Tibetan letter RA U+0F62 (`ར`). -/
def cRA : Char := Char.ofNat 0x0F62
/-- Tibetan letter LA U+0F63 (`ལ`). -/
def cLA : Char := Char.ofNat 0x0F63
/-- Tibetan letter SHA U+0F64 (`ཤ`). -/
def cSHA : Char := Char.ofNat 0x0F64
/-- Tibetan letter SA U+0F66 (`ས`). -/
def cSA : Char := Char.ofNat 0x0F66
/-- Tibetan letter HA U+0F67 (`ཧ`). -/
def cHA : Char := Char.ofNat 0x0F67
/-- Tibetan letter A U+0F68 (`ཨ`). -/
def cA : Char := Char.ofNat 0x0F68

/-- Tibetan vowel sign I U+0F72 (`ི`). -/
def vI : Char := Char.ofNat 0x0F72
/-- Tibetan vowel sign U U+0F74 (`ུ`). -/
def vU : Char := Char.ofNat 0x0F74
/-- Tibetan vowel sign E U+0F7A (`ེ`). -/
def vE : Char := Char.ofNat 0x0F7A
/-- Tibetan vowel sign O U+0F7C (`ོ`). -/
def vO : Char := Char.ofNat 0x0F7C

/-- Tibetan vowel sign AA U+0F71 (`ཱ`) — source constant `LONG_MARK`. -/
def LONG_MARK : Char := Char.ofNat 0x0F71

/-- Tibetan subjoined letter KA U+0F90 (`ྐ`). -/
def sKA : Char := Char.ofNat 0x0F90
/-- Tibetan subjoined letter GA U+0F92 (`ྒ`). -/
def sGA : Char := Char.ofNat 0x0F92
/-- Tibetan subjoined letter NA U+0FA3 (`ྣ`). -/
def sNA : Char := Char.ofNat 0xFA3
/-- Tibetan subjoined letter BA U+0FA6 (`ྦ`). -/
def sBA : Char := Char.ofNat 0xFA6
/-- Tibetan subjoined letter WA U+0FAD (`ྭ`). -/
def sWA : Char := Char.ofNat 0xFAD
/-- Tibetan subjoined letter YA U+0FB1 (`ྱ`). -/
def sYA : Char := Char.ofNat 0xFB1
/-- Tibetan subjoined letter RA U+0FB2 (`ྲ`). -/
def sRA : Char := Char.ofNat 0xFB2
/-- Tibetan subjoined letter LA U+0FB3 (`ླ`). -/
def sLA : Char := Char.ofNat 0xFB3
/-- Tibetan subjoined letter HA U+0FB7 (`ྷ`). -/
def sHA : Char := Char.ofNat 0xFB7

/-! ### Core mapping tables (source section "Core mappings") -/

/-- Source `INITIAL_BASE`: canonical base roman for each initial letter. -/
def INITIAL_BASE : List (Char × Str) :=
  [(cKA, "k".toList), (cKHA, "kh".toList), (cGA, "g".toList), (cNGA, "ng".toList),
   (cCA, "c".toList), (cCHA, "ch".toList), (cJA, "j".toList), (cNYA, "ny".toList),
   (cTA, "t".toList), (cTHA, "th".toList), (cDA, "d".toList), (cNA, "n".toList),
   (cPA, "p".toList), (cPHA, "ph".toList), (cBA, "b".toList), (cMA, "m".toList),
   (cTSA, "ts".toList), (cTSHA, "tsh".toList), (cDZA, "dz".toList), (cWA, "w".toList),
   (cZHA, "zh".toList), (cZA, "z".toList), (cAA, "a".toList), (cYA, "y".toList),
   (cRA, "r".toList), (cLA, "l".toList), (cSHA, "sh".toList), (cSA, "s".toList),
   (cHA, "h".toList), (cA, "a".toList)]

/-- Lookup in `INITIAL_BASE` (JavaScript property access). -/
def lookupInitial (c : Char) : Option Str :=
  (INITIAL_BASE.find? (fun p => p.1 == c)).map (·.2)

/-- Source `DEVOICE_CANDIDATES`: a `Set` of strings.  Two of its elements
(`བྱ` and `དྲ`) are two-codepoint strings, so a one-letter `baseInitial` can
never equal them; they are kept for fidelity. -/
def DEVOICE_CANDIDATES : List Str :=
  [[cGA], [cJA], [cDA], [cBA], [cBA, sYA], [cDA, sRA], [cZHA], [cZA]]

/-- Source `VOWELS` without its `''` key: the explicit vowel signs and their
romans.  The `'': 'a'` entry (inherent vowel) is realised in `vowelRomanOf`. -/
def VOWELS : List (Char × Str) :=
  [(vI, "i".toList), (vU, "u".toList), (vE, "e".toList), (vO, "o".toList)]

/-- Lookup in `VOWELS`. -/
def lookupVowel (c : Char) : Option Str :=
  (VOWELS.find? (fun p => p.1 == c)).map (·.2)

/-- Source `FINAL_MAP`: final (jenju) letters and their romans. -/
def FINAL_MAP : List (Char × Str) :=
  [(cKA, "k".toList), (cTA, "t".toList), (cPA, "p".toList), (cNA, "n".toList),
   (cSHA, "sh".toList), (cLA, "l".toList), (cRA, "r".toList), (cNGA, "ng".toList)]

/-- Lookup in `FINAL_MAP`. -/
def lookupFinal (c : Char) : Option Str :=
  (FINAL_MAP.find? (fun p => p.1 == c)).map (·.2)

/-- Source `PREFIX_SET`: the prefix (nyönju) letters ག ད བ མ འ. -/
def PREFIX_SET : List Char := [cGA, cDA, cBA, cMA, cAA]

/-- Source `MEDIALS`: subjoined medials rendered y / w / r. -/
def MEDIALS : List (Char × Str) :=
  [(sYA, "y".toList), (sWA, "w".toList), (sRA, "r".toList)]

/-- Lookup in `MEDIALS`. -/
def lookupMedial (c : Char) : Option Str :=
  (MEDIALS.find? (fun p => p.1 == c)).map (·.2)

/-- An entry of the source `CLUSTER_INITIAL_MAP`: `whole` and `preferHard`
default to `false` where the source object omits them. -/
structure ClusterEntry where
  roman : Str
  whole : Bool
  preferHard : Bool
deriving DecidableEq

/-- Source `CLUSTER_INITIAL_MAP` in its insertion order:
བརྒྱ, བརྒ, རྒྱ, གྱ, གྲ, ལྷ, སྒྲ, སྦྱ, སླ. -/
def CLUSTER_INITIAL_MAP : List (Str × ClusterEntry) :=
  [([cBA, cRA, sGA, sYA], ⟨"gä".toList, true, false⟩),
   ([cBA, cRA, sGA], ⟨"g".toList, false, true⟩),
   ([cRA, sGA, sYA], ⟨"gya".toList, false, true⟩),
   ([cGA, sYA], ⟨"j".toList, false, false⟩),
   ([cGA, sRA], ⟨"dr".toList, false, false⟩),
   ([cLA, sHA], ⟨"lh".toList, false, true⟩),
   ([cSA, sGA, sRA], ⟨"dr".toList, false, true⟩),
   ([cSA, sBA, sYA], ⟨"bj".toList, false, true⟩),
   ([cSA, sLA], ⟨"l".toList, false, true⟩)]

/-- The entries of `CLUSTER_INITIAL_MAP` ordered by key length, longest
first — the order `findClusterMap` scans them in
(`Object.keys(...).sort((a,b)=>b.length-a.length)`, a stable sort, so keys
of equal length keep their insertion order). -/
def clusterKeysSorted : List (Str × ClusterEntry) :=
  [([cBA, cRA, sGA, sYA], ⟨"gä".toList, true, false⟩),
   ([cBA, cRA, sGA], ⟨"g".toList, false, true⟩),
   ([cRA, sGA, sYA], ⟨"gya".toList, false, true⟩),
   ([cSA, sGA, sRA], ⟨"dr".toList, false, true⟩),
   ([cSA, sBA, sYA], ⟨"bj".toList, false, true⟩),
   ([cGA, sYA], ⟨"j".toList, false, false⟩),
   ([cGA, sRA], ⟨"dr".toList, false, false⟩),
   ([cLA, sHA], ⟨"lh".toList, false, true⟩),
   ([cSA, sLA], ⟨"l".toList, false, true⟩)]

/-- JavaScript `s.includes(k)`: `k` occurs in `s` as a contiguous substring. -/
def strIncludes (s k : Str) : Bool :=
  s.tails.any (fun t => k.isPrefixOf t)

/-- Source `findClusterMap(s)`: the first (longest) cluster key that is a
contiguous substring of `s`, if any. -/
def findClusterMap (s : Str) : Option ClusterEntry :=
  (clusterKeysSorted.find? (fun p => strIncludes s p.1)).map (·.2)

/-! ### Normalization (source `normalizeKey`, `normToken`) -/

/-- The character class of the JavaScript regex `\s` (which is also exactly
the set `String.prototype.trim` strips). -/
def isJsSpace (c : Char) : Bool :=
  let n := c.toNat
  (0x09 ≤ n && n ≤ 0x0D) || n == 0x20 || n == 0xA0 || n == 0x1680 ||
  (0x2000 ≤ n && n ≤ 0x200A) || n == 0x2028 || n == 0x2029 || n == 0x202F ||
  n == 0x205F || n == 0x3000 || n == 0xFEFF

/-- The character class `[།༎༏༔\s]` of the source's second `replace` (also
used by `decomposeSyllableRaw`'s filter). -/
def isPunctSpace (c : Char) : Bool :=
  c == SHAD || c == NYIS_SHAD || c == TSHEG_SHAD || c == GTER_TSHEG || isJsSpace c

/-- JavaScript `String.prototype.trim`. -/
def trimStr (s : Str) : Str :=
  ((s.dropWhile isJsSpace).reverse.dropWhile isJsSpace).reverse

/-- The two global `replace`s of `normalizeKey`: drop every tsheg, then every
codepoint of `[།༎༏༔\s]`. -/
def stripFilter (s : Str) : Str :=
  (s.filter (fun c => c != TSHEG)).filter (fun c => !(isPunctSpace c))

/-- Source `normalizeKey(s)`: remove tsheg, the punctuation class and (via
the final `trim`) surrounding whitespace. -/
def normalizeKey (s : Str) : Str :=
  trimStr (stripFilter s)

/-- Source `normToken` — an alias for `normalizeKey`. -/
def normToken (s : Str) : Str := normalizeKey s

/-! ### The exceptions table (source `EXCEPTIONS` / `addException`) -/

/-- The `addException(uScript, roman)` calls of the source, in order, with
the raw (un-normalized) script keys. -/
def RAW_EXCEPTIONS : List (Str × Str) :=
  [([cBA, cRA, sGA, sYA, cDA], "gä".toList),
   ([cRA, sGA, cSA, cPA], "gep".toList),
   ([cSA, sKA, vU], "ku".toList),
   ([cKA, vU, cWA], "kû".toList),
   ([cKA, vE, cPA], "kep".toList),
   ([cRA, sGA, vE, cNA], "gen".toList),
   ([cRA, sGA, vE, cPA], "gep".toList),
   ([cRA, sGA, vO, cPA], "gop".toList),
   ([cKA, sRA, vO], "tro".toList),
   ([cSA, sLA, vO, cSA, TSHEG, cRA, sBA, vO, cSA], rsq :: "löbö".toList),
   ([cBA, cKA, sRA, TSHEG, cSHA, vI, cSA], "Trashi".toList),
   ([cBA, cZA, vO, TSHEG, cRA, vI, cGA], "Zori".toList),
   ([cBA, cZA, cNGA, TSHEG, cAA, cBA, sRA, vE, cLA], "zangdre".toList),
   ([cYA, cRA, TSHEG, cAA, cDA, sRA, vE, cNA], "yâdren".toList),
   ([cRA, sGA, sYA, cLA, TSHEG, cMA, cTSHA, cNA], "gätshe".toList),
   ([cCHA, vO, cSA, TSHEG, cSA, sGA, sRA], "Chödra".toList),
   ([cRA, sNA, cMA, TSHEG, cRA, sGA, vU, cSA, cNGA], apos :: "namgüng".toList)]

/-- Source `EXCEPTIONS`: keys are stored normalized
(`EXCEPTIONS[normalizeKey(uScript)] = roman`). -/
def EXCEPTIONS : List (Str × Str) :=
  RAW_EXCEPTIONS.map (fun p => (normalizeKey p.1, p.2))

/-- `EXCEPTIONS.hasOwnProperty(k)` followed by the property read. -/
def lookupExc (k : Str) : Option Str :=
  (EXCEPTIONS.find? (fun p => p.1 == k)).map (·.2)

/-! ### Syllable decomposition (source `decomposeSyllableRaw`) -/

/-- The record `decomposeSyllableRaw` returns. -/
structure Decomp where
  baseInitial : Option Char
  vowelSign : Option Char
  longMark : Bool
  hasPrefix : Bool
  medialsFound : List Str
  finalChar : Option Char
  rawChars : Str

/-- The vowel-sign keys of the source `VOWELS` object in their insertion
order (its `''` key is skipped by the scan's `v &&` test). -/
def vowelKeys : List Char := [vI, vU, vE, vO]

/-- The vowel scan of `decomposeSyllableRaw`: for each key of `VOWELS` in
object order, if it occurs in `cleaned`, record it and splice out its first
occurrence, then stop. -/
def scanVowel (cleaned : Str) : Option Char × Str :=
  match vowelKeys.find? (fun v => cleaned.contains v) with
  | some v => (some v, cleaned.erase v)
  | none => (none, cleaned)

/-- Source `decomposeSyllableRaw(syll)`. -/
def decomposeSyllableRaw (syll : Str) : Decomp :=
  let chars := syll.filter (fun ch => ch != TSHEG && !(isPunctSpace ch))
  let longMark := chars.contains LONG_MARK
  let cleaned0 := chars.filter (fun ch => ch != LONG_MARK)
  let scanned := scanVowel cleaned0
  let cleaned := scanned.2
  let hasPrefix := cleaned.dropLast.any (fun ch => PREFIX_SET.contains ch)
  let medialsFound := cleaned.filterMap lookupMedial
  let baseInitial := cleaned.find? (fun ch => (lookupInitial ch).isSome)
  let finalChar := cleaned.reverse.find? (fun ch => (lookupFinal ch).isSome)
  { baseInitial := baseInitial, vowelSign := scanned.1, longMark := longMark,
    hasPrefix := hasPrefix, medialsFound := medialsFound, finalChar := finalChar,
    rawChars := chars }

/-! ### Single-syllable conversion (source `convertSyllable`) -/

/-- Whether a partial (non-whole) cluster hint sets `comp.hasPrefix = true`
(`if (clmap.preferHard) comp.hasPrefix = true`). -/
def forceHardOf (raw : Str) : Bool :=
  match findClusterMap raw with
  | some cl => !cl.whole && cl.preferHard
  | none => false

/-- The value of `comp.hasPrefix` at the devoicing test, after the cluster
step may have overwritten it. -/
def effHasPrefix (raw : Str) : Bool :=
  (decomposeSyllableRaw raw).hasPrefix || forceHardOf raw

/-- The `initialRoman` after the cluster step: a partial cluster hint
replaces the base roman (`initialRoman = clmap.roman`). -/
def initialRoman1 (raw : Str) (h : Char) : Str :=
  match findClusterMap raw with
  | some cl => if !cl.whole then cl.roman else (lookupInitial h).getD [h]
  | none => (lookupInitial h).getD [h]

/-- The devoicing step: append the apostrophe when the initial is a devoice
candidate and no (effective) prefix is present, unless it is already there. -/
def devoiceApply (hp : Bool) (h : Char) (r : Str) : Str :=
  if !hp && DEVOICE_CANDIDATES.contains [h] then
    (if [apos].isSuffixOf r then r else r ++ [apos])
  else r

/-- The `initialRoman` after the devoicing step. -/
def initialRoman2 (raw : Str) (h : Char) : Str :=
  devoiceApply (effHasPrefix raw) h (initialRoman1 raw h)

/-- The medial step: append each found medial roman unless the string
already ends in it. -/
def addMedials (ms : List Str) (r : Str) : Str :=
  ms.foldl (fun acc m => if m.isSuffixOf acc then acc else acc ++ m) r

/-- The `initialRoman` after the medial step — the full initial part of the
assembled syllable. -/
def initialPartOf (raw : Str) (h : Char) : Str :=
  addMedials (decomposeSyllableRaw raw).medialsFound (initialRoman2 raw h)

/-- The `circ` table of the long-vowel step, in source order. -/
def CIRC : List (Str × Str) :=
  [("a".toList, "â".toList), ("e".toList, "ê".toList), ("i".toList, "î".toList),
   ("o".toList, "ô".toList), ("u".toList, "û".toList)]

/-- Source `circ[vowelRoman] || vowelRoman`. -/
def circum (v : Str) : Str :=
  ((CIRC.find? (fun p => p.1 == v)).map (·.2)).getD v

/-- Source `VOWELS[vowelSign] || 'a'` (with `VOWELS[''] === 'a'`). -/
def vowelRomanOf (vs : Option Char) : Str :=
  match vs with
  | some v => (lookupVowel v).getD ("a".toList)
  | none => "a".toList

/-- Source `if (finalChar && FINAL_MAP[finalChar]) finalRoman = ...`. -/
def finalRomanOf (fc : Option Char) : Str :=
  match fc with
  | some f => (lookupFinal f).getD []
  | none => []

/-- The rule-based assembly of `convertSyllable` once a base initial was
found: cluster hint, devoicing, medials, vowel, long-vowel circumflex
(suppressed before final ང), final. -/
def ruleAssemble (raw : Str) (h : Char) : Str :=
  let comp := decomposeSyllableRaw raw
  let vr := vowelRomanOf comp.vowelSign
  let vr2 := if comp.longMark && !(comp.finalChar == some cNGA) then circum vr else vr
  initialPartOf raw h ++ vr2 ++ finalRomanOf comp.finalChar

/-- Steps 3 onward of `convertSyllable`: decompose; with no base initial
fall back to `normalized || raw`, otherwise assemble by the rules. -/
def convertByRules (raw normalized : Str) : Str :=
  match (decomposeSyllableRaw raw).baseInitial with
  | none => if normalized.isEmpty then raw else normalized
  | some h => ruleAssemble raw h

/-- Source `convertSyllable(syll)`: trim; exact normalized exception; whole
cluster mapping; otherwise decompose and rule-convert. -/
def convertSyllable (syll : Str) : Str :=
  let raw := trimStr syll
  if raw.isEmpty then []
  else
    let normalized := normToken raw
    match lookupExc normalized with
    | some v => v
    | none =>
      match findClusterMap raw with
      | some cl => if cl.whole then cl.roman else convertByRules raw normalized
      | none => convertByRules raw normalized

/-! ### Multi-token conversion (source `convertDzongkhaText`) -/

/-- The token split `trimmed.split(/[\s་]+/g).filter(t => t && t.length > 0)`. -/
def splitTokens (s : Str) : List Str :=
  (s.splitOnP (fun c => isJsSpace c || c == TSHEG)).filter (fun t => !t.isEmpty)

/-- The token-scan loop of `convertDzongkhaText`: at each cursor position
try a 3-token window, then a 2-token window, against the exceptions table
(slices are joined without separator and normalized); on a match emit the
stored roman and advance by the window width, otherwise convert the single
token and advance by one. -/
def convertTokens : List Str → List Str
  | [] => []
  | [a] => [convertSyllable a]
  | [a, b] =>
    match lookupExc (normalizeKey (a ++ b)) with
    | some v => [v]
    | none => convertSyllable a :: convertTokens [b]
  | a :: b :: c :: rest =>
    match lookupExc (normalizeKey (a ++ b ++ c)) with
    | some v3 => v3 :: convertTokens rest
    | none =>
      match lookupExc (normalizeKey (a ++ b)) with
      | some v2 => v2 :: convertTokens (c :: rest)
      | none => convertSyllable a :: convertTokens (b :: c :: rest)

/-- Source `out.join(' ')`. -/
def joinSpace (l : List Str) : Str :=
  (l.intersperse [Char.ofNat 32]).flatten

/-- Source `convertDzongkhaText(input)`: trim; whole-text exception on the
normalized input; otherwise tokenize and run the window scan. -/
def convertDzongkhaText (input : Str) : Str :=
  let trimmed := trimStr input
  if trimmed.isEmpty then []
  else
    match lookupExc (normalizeKey trimmed) with
    | some v => v
    | none => joinSpace (convertTokens (splitTokens trimmed))

/-! ### Basic facts about the normalizer -/

/-- Membership in `stripFilter s` implies surviving both character filters. -/
lemma mem_stripFilter {s : Str} {c : Char} (hc : c ∈ stripFilter s) :
    (c != TSHEG) = true ∧ (!(isPunctSpace c)) = true := by
  unfold stripFilter at hc
  have h2 := List.mem_filter.mp hc
  have h1 := List.mem_filter.mp h2.1
  exact ⟨h1.2, h2.2⟩

/-- No codepoint of a stripped segment is JavaScript whitespace. -/
lemma mem_stripFilter_not_space {s : Str} {c : Char} (hc : c ∈ stripFilter s) :
    isJsSpace c = false := by
  have h2 := (mem_stripFilter hc).2
  by_cases h : isJsSpace c = true
  · exfalso
    have : isPunctSpace c = true := by unfold isPunctSpace; simp [h]
    simp [this] at h2
  · simpa using h

/-- Trimming a segment with no whitespace is a no-op. -/
lemma trimStr_eq_self {s : Str} (h : ∀ c ∈ s, isJsSpace c = false) : trimStr s = s := by
  unfold trimStr
  have h1 : s.dropWhile isJsSpace = s := by
    cases s with
    | nil => rfl
    | cons a l => rw [List.dropWhile_cons]; simp [h a (by simp)]
  rw [h1]
  have h2 : s.reverse.dropWhile isJsSpace = s.reverse := by
    cases hs : s.reverse with
    | nil => rfl
    | cons a l =>
      rw [List.dropWhile_cons]
      have ha : a ∈ s := by rw [← List.mem_reverse, hs]; simp
      simp [h a ha]
  rw [h2, List.reverse_reverse]

/-- Stripping twice strips once. -/
lemma stripFilter_idem (s : Str) : stripFilter (stripFilter s) = stripFilter s := by
  have ha : ∀ c ∈ stripFilter s, (c != TSHEG) = true :=
    fun c hc => (mem_stripFilter hc).1
  have hb : ∀ c ∈ stripFilter s, (!(isPunctSpace c)) = true :=
    fun c hc => (mem_stripFilter hc).2
  show ((stripFilter s).filter _).filter _ = stripFilter s
  rw [List.filter_eq_self.mpr ha, List.filter_eq_self.mpr hb]

/-- Normalizing is stripping: the final `trim` never removes anything. -/
lemma normalizeKey_eq_stripFilter (s : Str) : normalizeKey s = stripFilter s := by
  unfold normalizeKey
  exact trimStr_eq_self (fun c hc => mem_stripFilter_not_space hc)

/-- C9: the normalizer is idempotent — `normalizeKey (normalizeKey s) =
normalizeKey s` for every string `s`; normalizing an already-normalized
segment is a no-op. -/
theorem normalizeKey_idempotent (s : Str) :
    normalizeKey (normalizeKey s) = normalizeKey s := by
  rw [normalizeKey_eq_stripFilter s, normalizeKey_eq_stripFilter (stripFilter s),
    stripFilter_idem]

/-! ### C1: every exception key converts to its stored value -/

set_option maxRecDepth 8000 in
/-- C1: for every key `k` registered in the exception table with value `v`,
`convertDzongkhaText k = v` exactly — the whole-text exception check runs
before any tokenized or rule-based processing, and keys are both stored and
looked up normalized. -/
theorem exceptionTable_roundtrip :
    ∀ p ∈ EXCEPTIONS, convertDzongkhaText p.1 = p.2 := by decide

set_option maxRecDepth 8000 in
/-- Witness for C1: the first registered exception, བརྒྱད ↦ "gä". -/
theorem exceptionTable_roundtrip_witness :
    (normalizeKey [cBA, cRA, sGA, sYA, cDA], "gä".toList) ∈ EXCEPTIONS ∧
      convertDzongkhaText (normalizeKey [cBA, cRA, sGA, sYA, cDA]) = "gä".toList :=
  ⟨by decide,
    exceptionTable_roundtrip (normalizeKey [cBA, cRA, sGA, sYA, cDA], "gä".toList)
      (by decide)⟩

/-! ### C2: a 3-token window beats a 2-token window -/

/-- C2: at a cursor position where both a 2-token and a 3-token exception
window match, the token scan of `convertDzongkhaText` (embedded as
`convertTokens`) emits the 3-token match's stored roman and advances the
cursor by exactly three tokens. -/
theorem threeTokenWindow_precedence (a b c : Str) (rest : List Str) (v3 v2 : Str)
    (h3 : lookupExc (normalizeKey (a ++ b ++ c)) = some v3)
    (_h2 : lookupExc (normalizeKey (a ++ b)) = some v2) :
    convertTokens (a :: b :: c :: rest) = v3 :: convertTokens rest := by
  have h3' : lookupExc (normalizeKey (a ++ (b ++ c))) = some v3 := by
    rwa [← List.append_assoc]
  simp [convertTokens, h3']

set_option maxRecDepth 8000 in
/-- Witness for C2: the tokens ས, ྐུ, ། — both the 2-token window and the
3-token window normalize to the key སྐུ (the shad is stripped), so the
3-token window wins and consumes all three tokens. -/
theorem threeTokenWindow_precedence_witness :
    lookupExc (normalizeKey ([cSA] ++ [sKA, vU] ++ [SHAD])) = some ("ku".toList) ∧
      lookupExc (normalizeKey ([cSA] ++ [sKA, vU])) = some ("ku".toList) ∧
      convertTokens [[cSA], [sKA, vU], [SHAD]] = "ku".toList :: convertTokens [] :=
  ⟨by decide, by decide,
    threeTokenWindow_precedence [cSA] [sKA, vU] [SHAD] [] ("ku".toList) ("ku".toList)
      (by decide) (by decide)⟩

/-! ### C7: the syllable འབྲུག -/

set_option maxRecDepth 8000 in
/-- C7 (failing evaluation): on the single syllable འབྲུག (codepoints
འ བ ྲ ུ ག) the converter returns "aru", not the claimed "’druk": the
decomposer takes འ as the base initial (its roman is "a"), treats བ as a
prefix, renders the medial ྲ, and finds no final because ག is not a key of
`FINAL_MAP`. -/
theorem brug_aru :
    convertDzongkhaText [cAA, cBA, sRA, vU, cGA] = "aru".toList := by decide

/-! ### C5, C6, C8: counterexamples -/

set_option maxRecDepth 8000 in
/-- Counterexample for C5: the lone voiced head ག decomposes with a head and
no medial, vowel sign, final or prefix, yet `convertSyllable` returns
"g'a" (head phoneme, devoicing apostrophe, inherent vowel), not the claimed
head-phoneme-plus-"a" "ga"; and the final scan does not exclude the head —
the lone head ཀ is recorded as its own final and converts to "kak". -/
theorem bareHead_counterexample :
    (decomposeSyllableRaw [cGA]).baseInitial = some cGA ∧
    (decomposeSyllableRaw [cGA]).medialsFound = [] ∧
    (decomposeSyllableRaw [cGA]).vowelSign = none ∧
    (decomposeSyllableRaw [cGA]).finalChar = none ∧
    (decomposeSyllableRaw [cGA]).hasPrefix = false ∧
    convertSyllable [cGA] ≠ "ga".toList ∧
    convertSyllable [cGA] = "g".toList ++ [apos] ++ "a".toList ∧
    (decomposeSyllableRaw [cKA]).finalChar = some cKA ∧
    convertSyllable [cKA] = "kak".toList := by decide

set_option maxRecDepth 8000 in
/-- Counterexample for C6: in the syllable ཀ ུ ི the first vowel-sign
codepoint in left-to-right order is ུ (u), but the decomposer records
ི (i), because the scan walks the vowel table in key order ི ུ ེ ོ, not
the syllable.  A later-ignored vowel sign is not inert either: ག ུ ི
converts to "gi" while ག ི converts to "g'i" — the leftover ུ shifts the
prefix-detection window and suppresses the devoicing apostrophe. -/
theorem vowelScan_counterexample :
    (decomposeSyllableRaw [cKA, vU, vI]).vowelSign = some vI ∧
    [cKA, vU, vI].find? (fun ch => vowelKeys.contains ch) = some vU ∧
    vI ≠ vU ∧
    convertSyllable [cGA, vU, vI] = "gi".toList ∧
    convertSyllable [cGA, vI] = "g".toList ++ [apos] ++ "i".toList := by decide

set_option maxRecDepth 8000 in
/-- Counterexample for C8: the token ། (a lone shad) has no head consonant,
and its normalized raw text is empty, so `convertSyllable` emits the raw
token text — not the normalized text the claim promises, whose
non-emptiness also fails here. -/
theorem headless_counterexample :
    (decomposeSyllableRaw [SHAD]).baseInitial = none ∧
    normalizeKey [SHAD] = [] ∧
    convertSyllable [SHAD] = [SHAD] ∧
    convertSyllable [SHAD] ≠ normalizeKey [SHAD] := by decide

/-! ### C10: the token scan terminates and consumes every token -/

/-- C10: the token-scan loop (total by construction — the cursor advances
by 3, 2 or 1 tokens each iteration) emits at most one output item per input
token, and each output item consumes at most three tokens, so
`length ts ≤ 3 * length (convertTokens ts)`. -/
theorem convertTokens_length_bounds (ts : List Str) :
    (convertTokens ts).length ≤ ts.length ∧
      ts.length ≤ 3 * (convertTokens ts).length := by
  induction ts using convertTokens.induct with
  | case1 => simp [convertTokens]
  | case2 a => simp [convertTokens]
  | case3 a b v hv =>
    simp only [convertTokens]; rw [hv]; simp
  | case4 a b hv ih =>
    simp only [convertTokens]; rw [hv]; simp only [List.length_cons] at ih ⊢; omega
  | case5 a b c rest v3 h3 ih =>
    simp only [convertTokens]; rw [h3]; simp only [List.length_cons] at ih ⊢; omega
  | case6 a b c rest h3 v2 h2 ih =>
    simp only [convertTokens]; rw [h3, h2]
    simp only [List.length_cons] at ih ⊢; omega
  | case7 a b c rest h3 h2 ih =>
    simp only [convertTokens]; rw [h3, h2]
    simp only [List.length_cons] at ih ⊢; omega

/-! ### Character bookkeeping for the assembly stages -/

/-- The circumflexed roman vowels â ê î ô û — exactly the characters the
long-vowel step can introduce. -/
def isCircC (c : Char) : Bool :=
  c.toNat == 0xE2 || c.toNat == 0xEA || c.toNat == 0xEE || c.toNat == 0xF4 ||
    c.toNat == 0xFB

lemma INITIAL_BASE_clean :
    ∀ p ∈ INITIAL_BASE, ∀ ch ∈ p.2, ch ≠ apos ∧ isCircC ch = false := by decide

lemma clusterKeysSorted_clean :
    ∀ p ∈ clusterKeysSorted, ∀ ch ∈ p.2.roman, ch ≠ apos ∧ isCircC ch = false := by
  decide

lemma MEDIALS_clean :
    ∀ p ∈ MEDIALS, ∀ ch ∈ p.2, ch ≠ apos ∧ isCircC ch = false := by decide

lemma VOWELS_clean :
    ∀ p ∈ VOWELS, ∀ ch ∈ p.2, ch ≠ apos ∧ isCircC ch = false := by decide

lemma FINAL_MAP_clean :
    ∀ p ∈ FINAL_MAP, ∀ ch ∈ p.2, ch ≠ apos ∧ isCircC ch = false := by decide

lemma CIRC_noApos : ∀ p ∈ CIRC, ∀ ch ∈ p.2, ch ≠ apos := by decide

lemma aList_clean : ∀ ch ∈ ("a".toList : Str), ch ≠ apos ∧ isCircC ch = false := by
  decide

/-- Unpacking a `find?`-then-project table lookup into table membership. -/
lemma findMap_mem {α β : Type} {L : List (α × β)} {q : α × β → Bool} {r : β}
    (h : (L.find? q).map (fun p => p.2) = some r) :
    ∃ p ∈ L, p.2 = r ∧ q p = true := by
  cases hf : L.find? q with
  | none => rw [hf] at h; cases h
  | some p =>
    rw [hf] at h
    exact ⟨p, List.mem_of_find?_eq_some hf, by simpa using h, List.find?_some hf⟩

lemma lookupInitial_clean {c : Char} {r : Str} (h : lookupInitial c = some r) :
    ∀ ch ∈ r, ch ≠ apos ∧ isCircC ch = false := by
  unfold lookupInitial at h
  obtain ⟨p, hp, hpr, -⟩ := findMap_mem h
  exact hpr ▸ INITIAL_BASE_clean p hp

lemma lookupVowel_clean {c : Char} {r : Str} (h : lookupVowel c = some r) :
    ∀ ch ∈ r, ch ≠ apos ∧ isCircC ch = false := by
  unfold lookupVowel at h
  obtain ⟨p, hp, hpr, -⟩ := findMap_mem h
  exact hpr ▸ VOWELS_clean p hp

lemma lookupFinal_clean {c : Char} {r : Str} (h : lookupFinal c = some r) :
    ∀ ch ∈ r, ch ≠ apos ∧ isCircC ch = false := by
  unfold lookupFinal at h
  obtain ⟨p, hp, hpr, -⟩ := findMap_mem h
  exact hpr ▸ FINAL_MAP_clean p hp

lemma lookupMedial_clean {c : Char} {r : Str} (h : lookupMedial c = some r) :
    ∀ ch ∈ r, ch ≠ apos ∧ isCircC ch = false := by
  unfold lookupMedial at h
  obtain ⟨p, hp, hpr, -⟩ := findMap_mem h
  exact hpr ▸ MEDIALS_clean p hp

lemma findClusterMap_clean {s : Str} {cl : ClusterEntry}
    (h : findClusterMap s = some cl) :
    ∀ ch ∈ cl.roman, ch ≠ apos ∧ isCircC ch = false := by
  unfold findClusterMap at h
  obtain ⟨p, hp, hpr, -⟩ := findMap_mem h
  exact hpr ▸ clusterKeysSorted_clean p hp

lemma vowelRomanOf_clean (vs : Option Char) :
    ∀ ch ∈ vowelRomanOf vs, ch ≠ apos ∧ isCircC ch = false := by
  intro ch hch
  cases vs with
  | none => exact aList_clean ch hch
  | some v =>
    have hch' : ch ∈ (lookupVowel v).getD ("a".toList) := hch
    cases hl : lookupVowel v with
    | none => rw [hl] at hch'; exact aList_clean ch (by simpa using hch')
    | some r => rw [hl] at hch'; exact lookupVowel_clean hl ch (by simpa using hch')

lemma finalRomanOf_clean (fc : Option Char) :
    ∀ ch ∈ finalRomanOf fc, ch ≠ apos ∧ isCircC ch = false := by
  intro ch hch
  cases fc with
  | none => cases hch
  | some f =>
    have hch' : ch ∈ (lookupFinal f).getD [] := hch
    cases hl : lookupFinal f with
    | none => rw [hl] at hch'; cases hch'
    | some r => rw [hl] at hch'; exact lookupFinal_clean hl ch (by simpa using hch')

lemma circum_noApos {v : Str} (hv : ∀ ch ∈ v, ch ≠ apos) :
    ∀ ch ∈ circum v, ch ≠ apos := by
  unfold circum
  cases hf : CIRC.find? (fun p => p.1 == v) with
  | none => simpa using hv
  | some p =>
    have hp := List.mem_of_find?_eq_some hf
    simpa using CIRC_noApos p hp

/-- The base initial reported by the decomposer is a key of `INITIAL_BASE`. -/
lemma baseInitial_lookup {raw : Str} {h : Char}
    (hh : (decomposeSyllableRaw raw).baseInitial = some h) :
    (lookupInitial h).isSome := by
  simp only [decomposeSyllableRaw] at hh
  have hp := List.find?_some hh
  simpa using hp

/-- Every medial roman the decomposer collects is a `MEDIALS` value. -/
lemma medialsFound_clean (raw : Str) :
    ∀ m ∈ (decomposeSyllableRaw raw).medialsFound,
      ∀ ch ∈ m, ch ≠ apos ∧ isCircC ch = false := by
  intro m hm
  simp only [decomposeSyllableRaw] at hm
  obtain ⟨c, -, hc⟩ := List.mem_filterMap.mp hm
  exact lookupMedial_clean hc

lemma initialRoman1_clean {raw : Str} {h : Char}
    (hsome : (lookupInitial h).isSome) :
    ∀ ch ∈ initialRoman1 raw h, ch ≠ apos ∧ isCircC ch = false := by
  obtain ⟨r, hr⟩ := Option.isSome_iff_exists.mp hsome
  unfold initialRoman1
  cases hfc : findClusterMap raw with
  | none => simpa [hr] using lookupInitial_clean hr
  | some cl =>
    by_cases hw : cl.whole
    · simpa [hw, hr] using lookupInitial_clean hr
    · simpa [hw] using findClusterMap_clean hfc

/-! ### The devoicing and medial steps -/

lemma devoiceApply_count {hp : Bool} {h : Char} {r : Str}
    (hr : ∀ ch ∈ r, ch ≠ apos) :
    (devoiceApply hp h r).count apos =
      (if (!hp && DEVOICE_CANDIDATES.contains [h]) then 1 else 0) := by
  have hzero : r.count apos = 0 := List.count_eq_zero.mpr (fun hm => (hr apos hm) rfl)
  unfold devoiceApply
  by_cases hc : (!hp && DEVOICE_CANDIDATES.contains [h]) = true
  · have hsuf : ¬([apos].isSuffixOf r = true) := by
      intro hs
      have : apos ∈ r :=
        (List.isSuffixOf_iff_suffix.mp hs).subset (List.mem_singleton_self apos)
      exact (hr apos this) rfl
    rw [if_pos hc, if_pos hc, if_neg hsuf, List.count_append, hzero]
    simp
  · rw [if_neg hc, if_neg hc]
    exact hzero

lemma devoiceApply_mem {hp : Bool} {h : Char} {r : Str} {ch : Char}
    (hm : ch ∈ devoiceApply hp h r) : ch ∈ r ∨ ch = apos := by
  unfold devoiceApply at hm
  by_cases hc : (!hp && DEVOICE_CANDIDATES.contains [h]) = true
  · rw [if_pos hc] at hm
    by_cases hs : [apos].isSuffixOf r = true
    · rw [if_pos hs] at hm; exact Or.inl hm
    · rw [if_neg hs] at hm
      rcases List.mem_append.mp hm with h1 | h2
      · exact Or.inl h1
      · exact Or.inr (by simpa using h2)
  · rw [if_neg hc] at hm; exact Or.inl hm

lemma addMedials_count {ms : List Str} {r : Str}
    (hm : ∀ m ∈ ms, ∀ ch ∈ m, ch ≠ apos) :
    (addMedials ms r).count apos = r.count apos := by
  induction ms generalizing r with
  | nil => rfl
  | cons m ms ih =>
    have hmz : m.count apos = 0 :=
      List.count_eq_zero.mpr (fun hmem => (hm m (by simp) apos hmem) rfl)
    have htail : ∀ m' ∈ ms, ∀ ch ∈ m', ch ≠ apos :=
      fun m' hm' => hm m' (by simp [hm'])
    unfold addMedials at ih ⊢
    rw [List.foldl_cons]
    by_cases hs : m.isSuffixOf r = true
    · rw [if_pos hs, ih htail]
    · rw [if_neg hs, ih htail, List.count_append, hmz]; omega

lemma addMedials_mem {ms : List Str} {r : Str} {ch : Char}
    (h : ch ∈ addMedials ms r) : ch ∈ r ∨ ∃ m ∈ ms, ch ∈ m := by
  induction ms generalizing r with
  | nil => exact Or.inl h
  | cons m ms ih =>
    unfold addMedials at h ih
    rw [List.foldl_cons] at h
    by_cases hs : m.isSuffixOf r = true
    · rw [if_pos hs] at h
      rcases ih h with h1 | ⟨m', hm', hch⟩
      · exact Or.inl h1
      · exact Or.inr ⟨m', by simp [hm'], hch⟩
    · rw [if_neg hs] at h
      rcases ih h with h1 | ⟨m', hm', hch⟩
      · rcases List.mem_append.mp h1 with h2 | h3
        · exact Or.inl h2
        · exact Or.inr ⟨m, by simp, h3⟩
      · exact Or.inr ⟨m', by simp [hm'], hch⟩

/-! ### Unfolding `convertSyllable` on the rule-based path -/

/-- With no exception hit and no whole-cluster hit, `convertSyllable` runs
the decompose-and-assemble path. -/
lemma convertSyllable_eq_byRules {raw : Str}
    (ht : trimStr raw = raw) (hne : raw ≠ [])
    (hx : lookupExc (normalizeKey raw) = none)
    (hcl : (findClusterMap raw).all (fun cl => !cl.whole) = true) :
    convertSyllable raw = convertByRules raw (normalizeKey raw) := by
  have hne' : raw.isEmpty = false := by
    cases raw with
    | nil => exact absurd rfl hne
    | cons a l => rfl
  simp only [convertSyllable, normToken, ht, hne', Bool.false_eq_true, if_false, hx]
  cases hfc : findClusterMap raw with
  | none => rfl
  | some cl =>
    have hw : cl.whole = false := by
      rw [hfc] at hcl
      simpa using hcl
    simp [hw]

/-- With a base initial found, the rule-based path is `ruleAssemble`. -/
lemma convertSyllable_eq_ruleAssemble {raw : Str} {h : Char}
    (ht : trimStr raw = raw) (hne : raw ≠ [])
    (hx : lookupExc (normalizeKey raw) = none)
    (hcl : (findClusterMap raw).all (fun cl => !cl.whole) = true)
    (hh : (decomposeSyllableRaw raw).baseInitial = some h) :
    convertSyllable raw = ruleAssemble raw h := by
  rw [convertSyllable_eq_byRules ht hne hx hcl]
  simp [convertByRules, hh]

/-- The apostrophe count of a rule-assembled syllable is exactly the
devoicing condition. -/
lemma count_apos_convertSyllable {raw : Str} {h : Char}
    (ht : trimStr raw = raw) (hne : raw ≠ [])
    (hx : lookupExc (normalizeKey raw) = none)
    (hcl : (findClusterMap raw).all (fun cl => !cl.whole) = true)
    (hh : (decomposeSyllableRaw raw).baseInitial = some h) :
    (convertSyllable raw).count apos =
      (if (!(effHasPrefix raw) && DEVOICE_CANDIDATES.contains [h]) then 1 else 0) := by
  rw [convertSyllable_eq_ruleAssemble ht hne hx hcl hh]
  have hclean1 : ∀ ch ∈ initialRoman1 raw h, ch ≠ apos ∧ isCircC ch = false :=
    initialRoman1_clean (baseInitial_lookup hh)
  have hinit : (initialPartOf raw h).count apos =
      (if (!(effHasPrefix raw) && DEVOICE_CANDIDATES.contains [h]) then 1 else 0) := by
    unfold initialPartOf initialRoman2
    rw [addMedials_count (fun m hm ch hch => (medialsFound_clean raw m hm ch hch).1)]
    exact devoiceApply_count (fun ch hch => (hclean1 ch hch).1)
  have hv1 : (vowelRomanOf (decomposeSyllableRaw raw).vowelSign).count apos = 0 :=
    List.count_eq_zero.mpr (fun hm => ((vowelRomanOf_clean _ apos hm).1) rfl)
  have hv2 : (circum (vowelRomanOf (decomposeSyllableRaw raw).vowelSign)).count apos = 0 :=
    List.count_eq_zero.mpr
      (fun hm =>
        (circum_noApos (fun ch hch => (vowelRomanOf_clean _ ch hch).1) apos hm) rfl)
  have hfin : (finalRomanOf (decomposeSyllableRaw raw).finalChar).count apos = 0 :=
    List.count_eq_zero.mpr (fun hm => ((finalRomanOf_clean _ apos hm).1) rfl)
  simp only [ruleAssemble]
  rw [List.count_append, List.count_append, hinit, hfin]
  by_cases hb : ((decomposeSyllableRaw raw).longMark &&
      !((decomposeSyllableRaw raw).finalChar == some cNGA)) = true
  · rw [if_pos hb, hv2]; omega
  · rw [if_neg hb, hv1]; omega

/-! ### C3: the devoicing biconditional -/

/-- C3: on the rule-based path (no exception, no whole-cluster hit, head
found) the devoicing apostrophe appears in the output if and only if the
head is in the devoice-candidate class and no effective prefix (a real
prefix letter or a prefer-hard partial cluster hint) is present; the marker
is never doubled. -/
theorem devoicing_marker_iff (raw : Str) (h : Char)
    (ht : trimStr raw = raw) (hne : raw ≠ [])
    (hx : lookupExc (normalizeKey raw) = none)
    (hcl : (findClusterMap raw).all (fun cl => !cl.whole) = true)
    (hh : (decomposeSyllableRaw raw).baseInitial = some h) :
    (apos ∈ convertSyllable raw ↔
      (DEVOICE_CANDIDATES.contains [h] = true ∧ effHasPrefix raw = false)) ∧
    (convertSyllable raw).count apos ≤ 1 := by
  have hc := count_apos_convertSyllable ht hne hx hcl hh
  constructor
  · constructor
    · intro hm
      have hpos : 0 < (convertSyllable raw).count apos := List.count_pos_iff.mpr hm
      rw [hc] at hpos
      by_cases hb : (!(effHasPrefix raw) && DEVOICE_CANDIDATES.contains [h]) = true
      · simp only [Bool.and_eq_true] at hb
        exact ⟨hb.2, by simpa using hb.1⟩
      · rw [if_neg hb] at hpos; omega
    · rintro ⟨h1, h2⟩
      have hb : (!(effHasPrefix raw) && DEVOICE_CANDIDATES.contains [h]) = true := by
        rw [h2, h1]; rfl
      have hone : (convertSyllable raw).count apos = 1 := by rw [hc, if_pos hb]
      exact List.count_pos_iff.mp (by omega)
  · rw [hc]
    split <;> omega

/-- Witness for C3: the bare voiced head ག, where the devoicing condition
holds and the apostrophe indeed appears. -/
theorem devoicing_marker_iff_witness :
    trimStr [cGA] = [cGA] ∧ [cGA] ≠ ([] : Str) ∧
    lookupExc (normalizeKey [cGA]) = none ∧
    ((findClusterMap [cGA]).all (fun cl => !cl.whole)) = true ∧
    (decomposeSyllableRaw [cGA]).baseInitial = some cGA ∧
    ((apos ∈ convertSyllable [cGA] ↔
        (DEVOICE_CANDIDATES.contains [cGA] = true ∧ effHasPrefix [cGA] = false)) ∧
      (convertSyllable [cGA]).count apos ≤ 1) :=
  ⟨by decide, by decide, by decide, by decide, by decide,
    devoicing_marker_iff [cGA] cGA (by decide) (by decide) (by decide) (by decide)
      (by decide)⟩

/-! ### C4: long vowel, circumflex and the final ང exception -/

lemma initialPartOf_circFree {raw : Str} {h : Char}
    (hsome : (lookupInitial h).isSome) :
    ∀ ch ∈ initialPartOf raw h, isCircC ch = false := by
  intro ch hch
  unfold initialPartOf at hch
  rcases addMedials_mem hch with h1 | ⟨m, hm, hc2⟩
  · unfold initialRoman2 at h1
    rcases devoiceApply_mem h1 with h2 | h2
    · exact (initialRoman1_clean hsome ch h2).2
    · rw [h2]; decide
  · exact (medialsFound_clean raw m hm ch hc2).2

/-- C4: on the rule-based path with the long-vowel mark present, the vowel
phoneme is replaced by its circumflexed form (a→â, e→ê, i→î, o→ô, u→û)
whenever the final is not ང, and with final ང no circumflexed vowel ever
appears in the output. -/
theorem longVowel_circumflex_ng (raw : Str) (h : Char)
    (ht : trimStr raw = raw) (hne : raw ≠ [])
    (hx : lookupExc (normalizeKey raw) = none)
    (hcl : (findClusterMap raw).all (fun cl => !cl.whole) = true)
    (hh : (decomposeSyllableRaw raw).baseInitial = some h)
    (hlm : (decomposeSyllableRaw raw).longMark = true) :
    ((decomposeSyllableRaw raw).finalChar ≠ some cNGA →
        convertSyllable raw =
          initialPartOf raw h ++
            circum (vowelRomanOf (decomposeSyllableRaw raw).vowelSign) ++
            finalRomanOf (decomposeSyllableRaw raw).finalChar) ∧
    ((decomposeSyllableRaw raw).finalChar = some cNGA →
        (∀ ch ∈ convertSyllable raw, isCircC ch = false) ∧
        convertSyllable raw =
          initialPartOf raw h ++
            vowelRomanOf (decomposeSyllableRaw raw).vowelSign ++
            finalRomanOf (decomposeSyllableRaw raw).finalChar) ∧
    circum ("a".toList) = "â".toList ∧ circum ("e".toList) = "ê".toList ∧
    circum ("i".toList) = "î".toList ∧ circum ("o".toList) = "ô".toList ∧
    circum ("u".toList) = "û".toList := by
  rw [convertSyllable_eq_ruleAssemble ht hne hx hcl hh]
  refine ⟨?_, ?_, by decide, by decide, by decide, by decide, by decide⟩
  · intro hng
    have hngb : ((decomposeSyllableRaw raw).finalChar == some cNGA) = false := by
      simpa using hng
    have hb : ((decomposeSyllableRaw raw).longMark &&
        !((decomposeSyllableRaw raw).finalChar == some cNGA)) = true := by
      rw [hlm, hngb]; rfl
    simp only [ruleAssemble]
    rw [if_pos hb]
  · intro hng
    have hngb : ((decomposeSyllableRaw raw).finalChar == some cNGA) = true := by
      simp [hng]
    have hb : ¬(((decomposeSyllableRaw raw).longMark &&
        !((decomposeSyllableRaw raw).finalChar == some cNGA)) = true) := by
      rw [hlm, hngb]; simp
    constructor
    · intro ch hch
      simp only [ruleAssemble] at hch
      rw [if_neg hb] at hch
      rcases List.mem_append.mp hch with h12 | h3
      · rcases List.mem_append.mp h12 with h1 | h2
        · exact initialPartOf_circFree (baseInitial_lookup hh) ch h1
        · exact (vowelRomanOf_clean _ ch h2).2
      · exact (finalRomanOf_clean _ ch h3).2
    · simp only [ruleAssemble]
      rw [if_neg hb]

/-- Witness for C4: the syllable ཀ + long mark, whose final is the
(head-reused) ཀ, not ང, so the circumflexed inherent vowel appears:
the output is "kâk". -/
theorem longVowel_circumflex_ng_witness :
    trimStr [cKA, LONG_MARK] = [cKA, LONG_MARK] ∧
    lookupExc (normalizeKey [cKA, LONG_MARK]) = none ∧
    (decomposeSyllableRaw [cKA, LONG_MARK]).baseInitial = some cKA ∧
    (decomposeSyllableRaw [cKA, LONG_MARK]).longMark = true ∧
    (decomposeSyllableRaw [cKA, LONG_MARK]).finalChar = some cKA ∧
    convertSyllable [cKA, LONG_MARK] =
      initialPartOf [cKA, LONG_MARK] cKA ++
        circum (vowelRomanOf (decomposeSyllableRaw [cKA, LONG_MARK]).vowelSign) ++
        finalRomanOf (decomposeSyllableRaw [cKA, LONG_MARK]).finalChar :=
  ⟨by decide, by decide, by decide, by decide, by decide,
    (longVowel_circumflex_ng [cKA, LONG_MARK] cKA (by decide) (by decide) (by decide)
        (by decide) (by decide) (by decide)).1 (by decide)⟩

/-! ### C5 (amended): bare-head syllables -/

/-- C5 (amended): with no exception and no cluster hit, a syllable whose
decomposition yields a head but no medial, no vowel sign, no final and no
prefix converts to the head's base roman, followed by the devoicing
apostrophe exactly when the head is a devoice candidate, followed by the
inherent vowel ("â" instead of "a" when the long mark was present). -/
theorem bareHead_output (raw : Str) (h : Char)
    (ht : trimStr raw = raw) (hne : raw ≠ [])
    (hx : lookupExc (normalizeKey raw) = none)
    (hcl : findClusterMap raw = none)
    (hh : (decomposeSyllableRaw raw).baseInitial = some h)
    (hv : (decomposeSyllableRaw raw).vowelSign = none)
    (hm : (decomposeSyllableRaw raw).medialsFound = [])
    (hf : (decomposeSyllableRaw raw).finalChar = none)
    (hp : (decomposeSyllableRaw raw).hasPrefix = false) :
    convertSyllable raw =
      (lookupInitial h).getD [h] ++
        (if DEVOICE_CANDIDATES.contains [h] then [apos] else []) ++
        (if (decomposeSyllableRaw raw).longMark then "â".toList else "a".toList) := by
  have hcl' : (findClusterMap raw).all (fun cl => !cl.whole) = true := by
    rw [hcl]; rfl
  rw [convertSyllable_eq_ruleAssemble ht hne hx hcl' hh]
  have heff : effHasPrefix raw = false := by
    unfold effHasPrefix forceHardOf
    rw [hp, hcl]
    rfl
  have hir1 : initialRoman1 raw h = (lookupInitial h).getD [h] := by
    unfold initialRoman1; rw [hcl]
  have hnoapos : ∀ ch ∈ (lookupInitial h).getD [h], ch ≠ apos := by
    intro ch hch
    obtain ⟨r, hr⟩ := Option.isSome_iff_exists.mp (baseInitial_lookup hh)
    rw [hr] at hch
    exact (lookupInitial_clean hr ch (by simpa using hch)).1
  have hsuf : ([apos].isSuffixOf ((lookupInitial h).getD [h])) = false := by
    rw [Bool.eq_false_iff]
    intro hs
    exact (hnoapos apos
      ((List.isSuffixOf_iff_suffix.mp hs).subset (List.mem_singleton_self apos))) rfl
  have hca : circum ("a".toList) = "â".toList := by decide
  simp only [ruleAssemble, initialPartOf, initialRoman2, hv, hf, hm, hir1, heff,
    addMedials, List.foldl_nil, vowelRomanOf, finalRomanOf]
  unfold devoiceApply
  rw [hsuf, show ((none : Option Char) == some cNGA) = false from rfl]
  simp only [Bool.not_false, Bool.true_and, Bool.and_true, Bool.false_eq_true,
    if_false, List.append_nil]
  by_cases hd : DEVOICE_CANDIDATES.contains [h] = true
  · rw [if_pos hd, if_pos hd]
    by_cases hlm : (decomposeSyllableRaw raw).longMark = true
    · rw [if_pos hlm, if_pos hlm, hca]
    · rw [if_neg hlm, if_neg hlm]
  · rw [if_neg hd, if_neg hd, List.append_nil]
    by_cases hlm : (decomposeSyllableRaw raw).longMark = true
    · rw [if_pos hlm, if_pos hlm, hca]
    · rw [if_neg hlm, if_neg hlm]

set_option maxRecDepth 8000 in
/-- Witness for C5 (amended): the bare voiced head ག, which converts to
"g" + apostrophe + "a". -/
theorem bareHead_output_witness :
    trimStr [cGA] = [cGA] ∧
    lookupExc (normalizeKey [cGA]) = none ∧
    findClusterMap [cGA] = none ∧
    (decomposeSyllableRaw [cGA]).baseInitial = some cGA ∧
    (decomposeSyllableRaw [cGA]).vowelSign = none ∧
    (decomposeSyllableRaw [cGA]).medialsFound = [] ∧
    (decomposeSyllableRaw [cGA]).finalChar = none ∧
    (decomposeSyllableRaw [cGA]).hasPrefix = false ∧
    convertSyllable [cGA] =
      (lookupInitial cGA).getD [cGA] ++
        (if DEVOICE_CANDIDATES.contains [cGA] then [apos] else []) ++
        (if (decomposeSyllableRaw [cGA]).longMark then "â".toList else "a".toList) :=
  ⟨by decide, by decide, by decide, by decide, by decide, by decide, by decide,
    by decide,
    bareHead_output [cGA] cGA (by decide) (by decide) (by decide) (by decide)
      (by decide) (by decide) (by decide) (by decide) (by decide)⟩

/-! ### C8 (amended): headless tokens fall back locally -/

/-- C8 (amended): a token in which decomposition finds no head consonant is
emitted as its normalized raw text when that is non-empty, and as the raw
token text itself when normalization leaves nothing; either way the output
for a non-empty token is non-empty, and the conversion is total (no
exception can be thrown). -/
theorem headless_fallback (raw : Str)
    (ht : trimStr raw = raw) (hne : raw ≠ [])
    (hx : lookupExc (normalizeKey raw) = none)
    (hcl : (findClusterMap raw).all (fun cl => !cl.whole) = true)
    (hh : (decomposeSyllableRaw raw).baseInitial = none) :
    convertSyllable raw =
      (if (normalizeKey raw).isEmpty then raw else normalizeKey raw) ∧
    convertSyllable raw ≠ [] := by
  have heq : convertSyllable raw =
      (if (normalizeKey raw).isEmpty then raw else normalizeKey raw) := by
    rw [convertSyllable_eq_byRules ht hne hx hcl]
    simp [convertByRules, hh]
  refine ⟨heq, ?_⟩
  rw [heq]
  by_cases hz : (normalizeKey raw).isEmpty = true
  · rw [if_pos hz]; exact hne
  · rw [if_neg hz]
    intro hcon
    exact hz (by simp [hcon])

set_option maxRecDepth 8000 in
/-- Witness for C8 (amended): the lone shad ། — headless, normalizes to the
empty string, and is emitted raw. -/
theorem headless_fallback_witness :
    trimStr [SHAD] = [SHAD] ∧
    lookupExc (normalizeKey [SHAD]) = none ∧
    ((findClusterMap [SHAD]).all (fun cl => !cl.whole)) = true ∧
    (decomposeSyllableRaw [SHAD]).baseInitial = none ∧
    (convertSyllable [SHAD] =
        (if (normalizeKey [SHAD]).isEmpty then [SHAD] else normalizeKey [SHAD]) ∧
      convertSyllable [SHAD] ≠ []) :=
  ⟨by decide, by decide, by decide, by decide,
    headless_fallback [SHAD] (by decide) (by decide) (by decide) (by decide)
      (by decide)⟩

/-! ### C6 (amended): the vowel scan follows table order -/

/-- C6 (amended): the decomposer's vowel is the first vowel-sign codepoint
in the fixed table order ི ུ ེ ོ that occurs anywhere in the cleaned
syllable (not the first in string order); only that sign's first occurrence
is removed (the count of the recorded sign drops by exactly one), and no
second vowel is ever recorded. -/
theorem vowelScan_tableOrder :
    (∀ s : Str,
      (decomposeSyllableRaw s).vowelSign =
        (scanVowel ((s.filter (fun ch => ch != TSHEG && !(isPunctSpace ch))).filter
          (fun ch => ch != LONG_MARK))).1) ∧
    (∀ cl : Str,
      (scanVowel cl).1 =
        (if cl.contains vI then some vI
         else if cl.contains vU then some vU
         else if cl.contains vE then some vE
         else if cl.contains vO then some vO
         else none)) ∧
    (∀ cl : Str,
      match (scanVowel cl).1 with
      | some v => (scanVowel cl).2 = cl.erase v ∧
          cl.count v = ((scanVowel cl).2).count v + 1
      | none => (scanVowel cl).2 = cl) := by
  refine ⟨fun s => rfl, fun cl => ?_, fun cl => ?_⟩
  · by_cases h1 : vI ∈ cl <;>
      by_cases h2 : vU ∈ cl <;>
        by_cases h3 : vE ∈ cl <;>
          by_cases h4 : vO ∈ cl <;>
            simp [scanVowel, vowelKeys, List.find?, h1, h2, h3, h4]
  · unfold scanVowel
    cases hf : vowelKeys.find? (fun v => cl.contains v) with
    | none => simp
    | some v =>
      simp only []
      refine ⟨by trivial, ?_⟩
      have hmem : v ∈ cl := by
        have hc := List.find?_some hf
        simpa using hc
      have hcount := List.count_erase_self v cl
      have hpos : 0 < cl.count v := List.count_pos_iff.mpr hmem
      omega
